import Mathlib

/-!
Verification of the funapp matchmaking and signaling relay.

The repository contains several near-duplicate server variants.  Two are
embedded here, faithfully to their JavaScript sources:

* the in-memory SSE server `src/unnamed/part_001` (maps `users`,
  `waitingUsers`, `userConnections`, the `/api/signal` dispatcher, the
  `/api/events` open/close handlers and `pairUsers`) — definitions prefixed
  `mem` or unprefixed;
* the MongoDB-backed SSE server in `src/server/server.js` (the `UserSession`
  collection, `/api/signal` with its 404 guard, `/api/events`, `/api/user-id`
  and its `pairUsers`) — definitions prefixed `db`.  Timestamps
  (`lastActive`, `createdAt`) and heartbeats play no role in any claim and
  are not modelled.

Client ids are opaque strings.  JavaScript `Map`s become association lists
with `Map.set` insertion-order semantics; the sets of open SSE connections
become lists of ids; every delivered server-to-client event is recorded in
an append-only log, so that statements about emitted events are statements
about this log.
-/

/-- Opaque client identifier (uuid / random string in the source). -/
abbrev UserId := String

/-- Session record of the in-memory server: `users.set(userId, { partner: null })`.
The source stores no other per-session field (in particular no `ready` flag). -/
structure Session where
  partner : Option UserId
deriving DecidableEq

/-- Optional payload of a `/api/signal` request body (`data?.offer`,
`data?.answer`, `data?.candidate`); an absent `data` object is the
all-`none` record. -/
structure SignalData where
  offer : Option String
  answer : Option String
  candidate : Option String
deriving DecidableEq

/-- Server-to-client events written to an SSE connection. `startCall` never
occurs in any server source; it is included so that its absence can be
stated. -/
inductive Msg where
  | connected (uid : UserId)
  | userConnected (partnerId : UserId)
  | offer (payload : Option String) (sender : UserId)
  | answer (payload : Option String) (sender : UserId)
  | iceCandidate (payload : String) (sender : UserId)
  | partnerDisconnected
  | startCall (initiator : Bool)
deriving DecidableEq

/-- HTTP response of the `/api/signal` endpoint: 200 `ok`, or 404
`User not found` (DB variant only). -/
inductive Resp where
  | ok
  | notFound
deriving DecidableEq

/-- Association-list lookup, mirroring `Map.get`. -/
def mget (m : List (UserId × Session)) (k : UserId) : Option Session :=
  match m with
  | [] => none
  | (k', v) :: rest => if k' = k then some v else mget rest k

/-- Association-list update, mirroring `Map.set`: replace the binding if the
key is present, otherwise append (preserving the `Map` insertion order). -/
def mset (m : List (UserId × Session)) (k : UserId) (v : Session) :
    List (UserId × Session) :=
  match m with
  | [] => [(k, v)]
  | (k', v') :: rest => if k' = k then (k, v) :: rest else (k', v') :: mset rest k v

/-- Association-list removal, mirroring `Map.delete`. -/
def mdel (m : List (UserId × Session)) (k : UserId) : List (UserId × Session) :=
  match m with
  | [] => []
  | (k', v') :: rest => if k' = k then mdel rest k else (k', v') :: mdel rest k

/-- Membership test, mirroring `Map.has`. -/
def mhas (m : List (UserId × Session)) (k : UserId) : Bool :=
  (mget m k).isSome

/-- Global state of the in-memory server `part_001`: the `users` map, the
`waitingUsers` array, the `userConnections` key set, and the log of events
delivered so far. -/
structure SState where
  users : List (UserId × Session)
  waiting : List UserId
  conns : List UserId
  events : List (UserId × Msg)
deriving DecidableEq

/-- Initial state: all stores empty. -/
def initState : SState := ⟨[], [], [], []⟩

/-- Model of `sendToUser(userId, message)`: append the event to the log when
the target has a live connection, otherwise drop it silently. -/
def sendTo (conns : List UserId) (events : List (UserId × Msg))
    (uid : UserId) (msg : Msg) : List (UserId × Msg) :=
  if uid ∈ conns then events ++ [(uid, msg)] else events

/-- The `while (waitingUsers.length >= 2)` loop of `pairUsers()` in
`part_001`: shift the two oldest ids; if both still have sessions, point
them at each other and notify both; otherwise do nothing for this pair; in
either case continue with the rest of the queue.  The loop neither pushes to
the queue nor touches the connection set. -/
def pairLoop (q : List UserId) (users : List (UserId × Session))
    (conns : List UserId) (events : List (UserId × Msg)) : SState :=
  match q with
  | x :: y :: rest =>
    match mget users x, mget users y with
    | some _, some _ =>
      let users1 := mset (mset users x ⟨some y⟩) y ⟨some x⟩
      let ev1 := sendTo conns events x (.userConnected y)
      let ev2 := sendTo conns ev1 y (.userConnected x)
      pairLoop rest users1 conns ev2
    | _, _ => pairLoop rest users conns events
  | _ => ⟨users, q, conns, events⟩

/-- `pairUsers()` of `part_001` (no trailing rescan in this variant). -/
def pairUsers (s : SState) : SState :=
  pairLoop s.waiting s.users s.conns s.events

/-- The `/api/signal` dispatcher of `part_001` (lines 125–209): look the
sender up once, then branch on the signal type exactly as the `switch`
does; every handled path answers 200 `ok`. -/
def signal (uid : UserId) (ty : String) (d : SignalData) (s : SState) :
    Resp × SState :=
  let user := mget s.users uid
  if ty = "offer" then
    match user with
    | some u =>
      match u.partner with
      | some p => (.ok, { s with events := sendTo s.conns s.events p (.offer d.offer uid) })
      | none => (.ok, s)
    | none => (.ok, s)
  else if ty = "answer" then
    match user with
    | some u =>
      match u.partner with
      | some p => (.ok, { s with events := sendTo s.conns s.events p (.answer d.answer uid) })
      | none => (.ok, s)
    | none => (.ok, s)
  else if ty = "ice-candidate" then
    match user with
    | some u =>
      match u.partner, d.candidate with
      | some p, some c => (.ok, { s with events := sendTo s.conns s.events p (.iceCandidate c uid) })
      | _, _ => (.ok, s)
    | none => (.ok, s)
  else if ty = "next-user" then
    match user with
    | some u =>
      match u.partner with
      | some p =>
        let ev1 := sendTo s.conns s.events p .partnerDisconnected
        let (users1, wait1) :=
          match mget s.users p with
          | some _ => (mset s.users p ⟨none⟩, s.waiting ++ [p])
          | none => (s.users, s.waiting)
        let users2 := mset users1 uid ⟨none⟩
        (.ok, pairUsers ⟨users2, wait1 ++ [uid], s.conns, ev1⟩)
      | none => (.ok, s)
    | none => (.ok, s)
  else if ty = "join" then
    if mhas s.users uid then (.ok, s)
    else (.ok, pairUsers ⟨mset s.users uid ⟨none⟩, s.waiting ++ [uid], s.conns, s.events⟩)
  else
    (.ok, s)

/-- The `/api/events` open handler of `part_001` (lines 51–91): write the
`connected` acknowledgment on the fresh stream, store the connection, and —
only when the id is new — register the session, enqueue it and run a
pairing pass. -/
def openChannel (uid : UserId) (s : SState) : SState :=
  let ev := s.events ++ [(uid, .connected uid)]
  let conns1 := if uid ∈ s.conns then s.conns else s.conns ++ [uid]
  if mhas s.users uid then
    { s with conns := conns1, events := ev }
  else
    pairUsers ⟨mset s.users uid ⟨none⟩, s.waiting ++ [uid], conns1, ev⟩

/-- The `req.on('close')` handler of `part_001` (lines 94–121): drop the
connection; if the user was partnered, notify the partner, clear the
partner's pointer and re-enqueue it; delete the user's session, splice it
out of the queue, and run a pairing pass. -/
def closeChannel (uid : UserId) (s : SState) : SState :=
  let conns1 := s.conns.filter (fun x => x ≠ uid)
  match mget s.users uid with
  | some u =>
    match u.partner with
    | some p =>
      let ev1 := sendTo conns1 s.events p .partnerDisconnected
      let (users1, wait1) :=
        match mget s.users p with
        | some _ => (mset s.users p ⟨none⟩, s.waiting ++ [p])
        | none => (s.users, s.waiting)
      pairUsers ⟨mdel users1 uid, wait1.erase uid, conns1, ev1⟩
    | none => pairUsers ⟨mdel s.users uid, s.waiting.erase uid, conns1, s.events⟩
  | none => pairUsers ⟨mdel s.users uid, s.waiting.erase uid, conns1, s.events⟩

/-- States of the in-memory server reachable from the empty start state by
complete operations: a channel open, a signal, or a channel close. -/
inductive Reach : SState → Prop where
  | init : Reach initState
  | openCh (s : SState) (uid : UserId) : Reach s → Reach (openChannel uid s)
  | sig (s : SState) (uid : UserId) (ty : String) (d : SignalData) :
      Reach s → Reach (signal uid ty d s).2
  | closeCh (s : SState) (uid : UserId) : Reach s → Reach (closeChannel uid s)

/-- The partner pointer of `uid`, when a session exists. -/
def partnerOf (s : SState) (uid : UserId) : Option UserId :=
  match mget s.users uid with
  | some u => u.partner
  | none => none

/-- Session status of the MongoDB `UserSession` schema. -/
inductive Status where
  | waiting
  | connected
  | disconnected
deriving DecidableEq

/-- MongoDB `UserSession` document (timestamps not modelled). -/
structure DbSession where
  partnerId : Option UserId
  status : Status
deriving DecidableEq

/-- Lookup in the `UserSession` collection (`findOne`). -/
def dbGet (db : List (UserId × DbSession)) (k : UserId) : Option DbSession :=
  match db with
  | [] => none
  | (k', v) :: rest => if k' = k then some v else dbGet rest k

/-- Insertion of a fresh `UserSession` document (`new UserSession(...).save()`). -/
def dbInsert (db : List (UserId × DbSession)) (k : UserId) (v : DbSession) :
    List (UserId × DbSession) :=
  db ++ [(k, v)]

/-- Model of `UserSession.updateOne({ userId }, patch)`: apply the patch to
the matching document; a missing document is silently left alone. -/
def dbUpdate (db : List (UserId × DbSession)) (k : UserId)
    (f : DbSession → DbSession) : List (UserId × DbSession) :=
  match db with
  | [] => []
  | (k', v) :: rest => if k' = k then (k', f v) :: rest else (k', v) :: dbUpdate rest k f

/-- Global state of the DB-backed server in `server.js`: the `UserSession`
collection, the in-memory `waitingUsers` array and `userConnections` key
set, and the log of delivered events. -/
structure DbState where
  db : List (UserId × DbSession)
  waiting : List UserId
  conns : List UserId
  events : List (UserId × Msg)
deriving DecidableEq

/-- Initial state of the DB-backed server. -/
def dbInit : DbState := ⟨[], [], [], []⟩

/-- The `while (waitingUsers.length >= 2)` loop of the DB variant's
`pairUsers()` (lines 571–609): shift two ids and `updateOne` both — with no
liveness check; a missing document makes the update a no-op.  The `catch`
branch cannot fire in this model. -/
def dbPairLoop (q : List UserId) (db : List (UserId × DbSession))
    (conns : List UserId) (events : List (UserId × Msg)) : DbState :=
  match q with
  | u1 :: u2 :: rest =>
    let db1 := dbUpdate db u1 (fun x => { x with partnerId := some u2, status := .connected })
    let db2 := dbUpdate db1 u2 (fun x => { x with partnerId := some u1, status := .connected })
    let ev1 := sendTo conns events u1 (.userConnected u2)
    let ev2 := sendTo conns ev1 u2 (.userConnected u1)
    dbPairLoop rest db2 conns ev2
  | _ => ⟨db, q, conns, events⟩

/-- `pairUsers()` of the DB variant. -/
def dbPairUsers (s : DbState) : DbState :=
  dbPairLoop s.waiting s.db s.conns s.events

/-- The `/api/user-id` endpoint: create a fresh `UserSession` with
`partnerId = null`, `status = 'waiting'` (the queue is not touched). -/
def dbRegister (uid : UserId) (s : DbState) : DbState :=
  { s with db := dbInsert s.db uid ⟨none, .waiting⟩ }

/-- The `/api/events` open handler of the DB variant (lines 314–359): create
the document if absent, otherwise set its status back to `waiting`
(leaving `partnerId` untouched); write the `connected` acknowledgment;
store the connection; enqueue the id if absent; run a pairing pass. -/
def dbOpenEvents (uid : UserId) (s : DbState) : DbState :=
  let db1 :=
    match dbGet s.db uid with
    | none => dbInsert s.db uid ⟨none, .waiting⟩
    | some _ => dbUpdate s.db uid (fun x => { x with status := .waiting })
  let ev1 := s.events ++ [(uid, .connected uid)]
  let conns1 := if uid ∈ s.conns then s.conns else s.conns ++ [uid]
  let wait1 := if uid ∈ s.waiting then s.waiting else s.waiting ++ [uid]
  dbPairUsers ⟨db1, wait1, conns1, ev1⟩

/-- The `/api/signal` dispatcher of the DB variant (lines 431–553): a sender
with no `UserSession` document is answered 404 `User not found` before the
switch; otherwise branch on the type as the `switch` does (the trailing
`lastActive` update is not modelled). -/
def dbSignal (uid : UserId) (ty : String) (d : SignalData) (s : DbState) :
    Resp × DbState :=
  match dbGet s.db uid with
  | none => (.notFound, s)
  | some sess =>
    if ty = "offer" then
      match sess.partnerId with
      | some p => (.ok, { s with events := sendTo s.conns s.events p (.offer d.offer uid) })
      | none => (.ok, s)
    else if ty = "answer" then
      match sess.partnerId with
      | some p => (.ok, { s with events := sendTo s.conns s.events p (.answer d.answer uid) })
      | none => (.ok, s)
    else if ty = "ice-candidate" then
      match sess.partnerId, d.candidate with
      | some p, some c => (.ok, { s with events := sendTo s.conns s.events p (.iceCandidate c uid) })
      | _, _ => (.ok, s)
    else if ty = "next-user" then
      match sess.partnerId with
      | some p =>
        let ev1 := sendTo s.conns s.events p .partnerDisconnected
        let db1 := dbUpdate s.db p (fun x => { x with partnerId := none, status := .waiting })
        let wait1 := if p ∈ s.waiting then s.waiting else s.waiting ++ [p]
        let db2 := dbUpdate db1 uid (fun x => { x with partnerId := none, status := .waiting })
        let wait2 := if uid ∈ wait1 then wait1 else wait1 ++ [uid]
        (.ok, dbPairUsers ⟨db2, wait2, s.conns, ev1⟩)
      | none => (.ok, s)
    else if ty = "join" then
      let db1 := dbUpdate s.db uid (fun x => { x with status := .waiting })
      let wait1 := if uid ∈ s.waiting then s.waiting else s.waiting ++ [uid]
      (.ok, dbPairUsers ⟨db1, wait1, s.conns, s.events⟩)
    else
      (.ok, s)

/-- The partner pointer recorded for `uid` in the `UserSession` collection. -/
def dbPartnerOf (s : DbState) (uid : UserId) : Option UserId :=
  match dbGet s.db uid with
  | some x => x.partnerId
  | none => none

/-- Partner pointers are symmetric and never self-referential. -/
def SymOK (users : List (UserId × Session)) : Prop :=
  ∀ a b, mget users a = some ⟨some b⟩ → a ≠ b ∧ mget users b = some ⟨some a⟩

/-- An id is queued exactly when it has a session with no partner. -/
def QueueOK (users : List (UserId × Session)) (q : List UserId) : Prop :=
  ∀ x, x ∈ q ↔ mget users x = some ⟨none⟩

/-- Joint invariant of the in-memory server: pointer symmetry, the queue
membership characterisation, and queue duplicate-freedom. -/
def StInv (s : SState) : Prop :=
  SymOK s.users ∧ QueueOK s.users s.waiting ∧ s.waiting.Nodup

/-- Empty signal payload (a request whose `data` field is absent). -/
def sdNone : SignalData := ⟨none, none, none⟩

/-- State after opening event channels for `u1` then `u2` on the in-memory
server: the two get paired with each other. -/
def twoOpenState : SState := openChannel "u2" (openChannel "u1" initState)

/-- Four live unpartnered clients queued in order `a, b, c, d`. -/
def c3State : SState :=
  ⟨[("a", ⟨none⟩), ("b", ⟨none⟩), ("c", ⟨none⟩), ("d", ⟨none⟩)],
   ["a", "b", "c", "d"], ["a", "b", "c", "d"], []⟩

/-- Queue `[a, b, c]` where `a` has no session but `b` and `c` do. -/
def c2State : SState :=
  ⟨[("b", ⟨none⟩), ("c", ⟨none⟩)], ["a", "b", "c"], ["b", "c"], []⟩

/-- DB-variant trace: open `u1`, open `u2` (pairing them), re-open `u1`,
then open `u3`. -/
def dbReopenState : DbState :=
  dbOpenEvents "u3" (dbOpenEvents "u1" (dbOpenEvents "u2" (dbOpenEvents "u1" dbInit)))

/-- DB-variant trace: open `u1`, open `u2` (pairing them), then re-open `u1`. -/
def dbReopen3 : DbState :=
  dbOpenEvents "u1" (dbOpenEvents "u2" (dbOpenEvents "u1" dbInit))

/-- Three registered ids on the DB variant, none yet joined. -/
def dbJoinBase : DbState := dbRegister "u3" (dbRegister "u2" (dbRegister "u1" dbInit))

/-- DB-variant trace: `u1` and `u2` join once each (pairing them). -/
def dbJoinOnce : DbState :=
  (dbSignal "u2" "join" sdNone (dbSignal "u1" "join" sdNone dbJoinBase).2).2

/-- Same trace with `u2` joining a second time while partnered. -/
def dbJoinTwice : DbState := (dbSignal "u2" "join" sdNone dbJoinOnce).2

/-- Continuation of the double-join trace: `u3` joins afterwards. -/
def dbJoinSteal : DbState := (dbSignal "u3" "join" sdNone dbJoinTwice).2

/-- One iteration of the `while (waitingUsers.length >= 2)` body of
`pairUsers()` in `part_001`, as a step function: `none` when the loop
guard fails, otherwise the state after one shift-shift-maybe-pair. -/
def pairStep (s : SState) : Option SState :=
  match s.waiting with
  | x :: y :: rest =>
    match mget s.users x, mget s.users y with
    | some _, some _ =>
      some ⟨mset (mset s.users x ⟨some y⟩) y ⟨some x⟩, rest, s.conns,
        sendTo s.conns (sendTo s.conns s.events x (.userConnected y)) y (.userConnected x)⟩
    | _, _ => some { s with waiting := rest }
  | _ => none

theorem mget_mset_self : ∀ (m : List (UserId × Session)) (k : UserId) (v : Session),
    mget (mset m k v) k = some v
  | [], k, v => by simp [mset, mget]
  | (k', v') :: rest, k, v => by
    by_cases h : k' = k
    · simp [mset, h, mget]
    · simp [mset, h, mget, mget_mset_self rest k v]

theorem mget_mset_ne : ∀ (m : List (UserId × Session)) (k j : UserId) (v : Session),
    j ≠ k → mget (mset m k v) j = mget m j
  | [], k, j, v, h => by simp [mset, mget, Ne.symm h]
  | (k', v') :: rest, k, j, v, h => by
    by_cases hk : k' = k
    · subst hk
      simp [mset, mget, Ne.symm h]
    · by_cases hj : k' = j
      · simp [mset, hk, mget, hj, h]
      · simp [mset, hk, mget, hj, mget_mset_ne rest k j v h]

theorem mget_mdel_self : ∀ (m : List (UserId × Session)) (k : UserId),
    mget (mdel m k) k = none
  | [], _ => rfl
  | (k', v') :: rest, k => by
    by_cases h : k' = k
    · simp [mdel, h, mget_mdel_self rest k]
    · simp [mdel, h, mget, mget_mdel_self rest k]

theorem mget_mdel_ne : ∀ (m : List (UserId × Session)) (k j : UserId),
    j ≠ k → mget (mdel m k) j = mget m j
  | [], _, _, _ => rfl
  | (k', v') :: rest, k, j, h => by
    by_cases hk : k' = k
    · subst hk
      simp [mdel, mget, Ne.symm h, mget_mdel_ne rest k' j h]
    · by_cases hj : k' = j
      · simp [mdel, hk, mget, hj, h]
      · simp [mdel, hk, mget, hj, mget_mdel_ne rest k j h]

theorem sendTo_grow (conns : List UserId) (evs : List (UserId × Msg))
    (u : UserId) (m : Msg) : ∃ t, sendTo conns evs u m = evs ++ t := by
  unfold sendTo
  split
  · exact ⟨_, rfl⟩
  · exact ⟨[], by simp⟩

theorem pairLoop_conns : ∀ (q : List UserId) users conns evs,
    (pairLoop q users conns evs).conns = conns
  | [], _, _, _ => rfl
  | [_], _, _, _ => rfl
  | x :: y :: rest, users, conns, evs => by
    cases hx : mget users x <;> cases hy : mget users y <;>
      simp [pairLoop, hx, hy, pairLoop_conns rest]

theorem pairLoop_users_not_mem : ∀ (q : List UserId) users conns evs z,
    z ∉ q → mget (pairLoop q users conns evs).users z = mget users z
  | [], _, _, _, _, _ => rfl
  | [_], _, _, _, _, _ => rfl
  | x :: y :: rest, users, conns, evs, z, hz => by
    simp only [List.mem_cons, not_or] at hz
    obtain ⟨hzx, hzy, hzr⟩ := hz
    cases hx : mget users x <;> cases hy : mget users y <;>
      simp only [pairLoop, hx, hy]
    case none.none | none.some | some.none =>
      exact pairLoop_users_not_mem rest _ _ _ z hzr
    case some.some =>
      rw [pairLoop_users_not_mem rest _ _ _ z hzr,
        mget_mset_ne _ _ _ _ hzy, mget_mset_ne _ _ _ _ hzx]

theorem pairLoop_waiting_sub : ∀ (q : List UserId) users conns evs z,
    z ∈ (pairLoop q users conns evs).waiting → z ∈ q
  | [], _, _, _, _, h => h
  | [_], _, _, _, _, h => h
  | x :: y :: rest, users, conns, evs, z, h => by
    cases hx : mget users x <;> cases hy : mget users y <;>
      simp only [pairLoop, hx, hy] at h <;>
      exact List.mem_cons_of_mem x (List.mem_cons_of_mem y (pairLoop_waiting_sub rest _ _ _ z h))

theorem pairLoop_events_grow : ∀ (q : List UserId) users conns evs,
    ∃ t, (pairLoop q users conns evs).events = evs ++ t
  | [], _, _, _ => ⟨[], by simp [pairLoop]⟩
  | [_], _, _, _ => ⟨[], by simp [pairLoop]⟩
  | x :: y :: rest, users, conns, evs => by
    cases hx : mget users x <;> cases hy : mget users y <;>
      simp only [pairLoop, hx, hy]
    case none.none | none.some | some.none =>
      exact pairLoop_events_grow rest _ _ _
    case some.some =>
      obtain ⟨t1, h1⟩ := sendTo_grow conns evs x (.userConnected y)
      obtain ⟨t2, h2⟩ := sendTo_grow conns (sendTo conns evs x (.userConnected y)) y
        (.userConnected x)
      obtain ⟨t3, h3⟩ := pairLoop_events_grow rest
        (mset (mset users x ⟨some y⟩) y ⟨some x⟩) conns
        (sendTo conns (sendTo conns evs x (.userConnected y)) y (.userConnected x))
      refine ⟨t1 ++ (t2 ++ t3), ?_⟩
      rw [h3, h2, h1]
      simp [List.append_assoc]

theorem pairLoop_waiting_len : ∀ (q : List UserId) users conns evs,
    (pairLoop q users conns evs).waiting.length = q.length % 2
  | [], _, _, _ => rfl
  | [_], _, _, _ => rfl
  | x :: y :: rest, users, conns, evs => by
    cases hx : mget users x <;> cases hy : mget users y <;>
      simp [pairLoop, hx, hy, pairLoop_waiting_len rest] <;> omega

theorem pairLoop_pairs_head (x y : UserId) (rest : List UserId)
    (users : List (UserId × Session)) (conns : List UserId)
    (evs : List (UserId × Msg)) (sx sy : Session)
    (hx : mget users x = some sx) (hy : mget users y = some sy) (hxy : x ≠ y)
    (hxr : x ∉ rest) (hyr : y ∉ rest) :
    mget (pairLoop (x :: y :: rest) users conns evs).users x = some ⟨some y⟩ ∧
    mget (pairLoop (x :: y :: rest) users conns evs).users y = some ⟨some x⟩ := by
  simp only [pairLoop, hx, hy]
  constructor
  · rw [pairLoop_users_not_mem rest _ _ _ x hxr,
      mget_mset_ne _ _ _ _ hxy, mget_mset_self]
  · rw [pairLoop_users_not_mem rest _ _ _ y hyr, mget_mset_self]

theorem pairLoop_inv : ∀ (q : List UserId) users conns evs,
    SymOK users → QueueOK users q → q.Nodup →
    StInv (pairLoop q users conns evs)
  | [], _, _, _, hs, hq, hn => ⟨hs, hq, hn⟩
  | [_], _, _, _, hs, hq, hn => ⟨hs, hq, hn⟩
  | x :: y :: rest, users, conns, evs, hs, hq, hn => by
    have hx : mget users x = some ⟨none⟩ := (hq x).mp (by simp)
    have hy : mget users y = some ⟨none⟩ := (hq y).mp (by simp)
    simp only [List.nodup_cons, List.mem_cons, not_or] at hn
    obtain ⟨⟨hxy, hxr⟩, hyr, hnr⟩ := hn
    simp only [pairLoop, hx, hy]
    refine pairLoop_inv rest _ conns _ ?_ ?_ hnr
    · intro a b hab
      by_cases hay : a = y
      · subst hay
        rw [mget_mset_self] at hab
        have hb : b = x := by
          simpa using hab.symm
        subst hb
        exact ⟨Ne.symm hxy, by rw [mget_mset_ne _ _ _ _ hxy, mget_mset_self]⟩
      · by_cases hax : a = x
        · subst hax
          rw [mget_mset_ne _ _ _ _ hxy, mget_mset_self] at hab
          have hb : b = y := by
            simpa using hab.symm
          subst hb
          exact ⟨hxy, by rw [mget_mset_self]⟩
        · rw [mget_mset_ne _ _ _ _ hay, mget_mset_ne _ _ _ _ hax] at hab
          obtain ⟨hne, hba⟩ := hs a b hab
          have hbx : b ≠ x := by
            intro hbx
            subst hbx
            rw [hx] at hba
            simp at hba
          have hby : b ≠ y := by
            intro hby
            subst hby
            rw [hy] at hba
            simp at hba
          exact ⟨hne, by rw [mget_mset_ne _ _ _ _ hby, mget_mset_ne _ _ _ _ hbx]; exact hba⟩
    · intro z
      constructor
      · intro hz
        have hzx : z ≠ x := fun h => hxr (h ▸ hz)
        have hzy : z ≠ y := fun h => hyr (h ▸ hz)
        rw [mget_mset_ne _ _ _ _ hzy, mget_mset_ne _ _ _ _ hzx]
        exact (hq z).mp (by simp [hz])
      · intro hz
        have hzy : z ≠ y := by
          intro h
          subst h
          rw [mget_mset_self] at hz
          simp at hz
        have hzx : z ≠ x := by
          intro h
          subst h
          rw [mget_mset_ne _ _ _ _ hzy, mget_mset_self] at hz
          simp at hz
        rw [mget_mset_ne _ _ _ _ hzy, mget_mset_ne _ _ _ _ hzx] at hz
        have := (hq z).mpr hz
        simp only [List.mem_cons] at this
        rcases this with h | h | h
        · exact absurd h hzx
        · exact absurd h hzy
        · exact h

theorem stInv_pairUsers (s : SState) (h : StInv s) : StInv (pairUsers s) :=
  pairLoop_inv s.waiting s.users s.conns s.events h.1 h.2.1 h.2.2

theorem stInv_enqueue_new (users : List (UserId × Session)) (waiting conns : List UserId)
    (evs : List (UserId × Msg)) (uid : UserId)
    (hun : mget users uid = none) (hs : SymOK users) (hq : QueueOK users waiting)
    (hn : waiting.Nodup) :
    StInv (pairUsers ⟨mset users uid ⟨none⟩, waiting ++ [uid], conns, evs⟩) := by
  have huw : uid ∉ waiting := by
    intro hw
    have := (hq uid).mp hw
    rw [hun] at this
    cases this
  apply pairLoop_inv
  · intro a b hab
    by_cases ha : a = uid
    · subst ha
      rw [mget_mset_self] at hab
      simp at hab
    · rw [mget_mset_ne _ _ _ _ ha] at hab
      obtain ⟨hne, hba⟩ := hs a b hab
      have hb : b ≠ uid := by
        intro h
        subst h
        rw [hun] at hba
        cases hba
      exact ⟨hne, by rw [mget_mset_ne _ _ _ _ hb]; exact hba⟩
  · intro z
    simp only [List.mem_append, List.mem_singleton]
    constructor
    · rintro (hz | rfl)
      · have hz' := (hq z).mp hz
        have hne : z ≠ uid := by
          intro h
          subst h
          rw [hun] at hz'
          cases hz'
        rw [mget_mset_ne _ _ _ _ hne]
        exact hz'
      · rw [mget_mset_self]
    · intro hz
      by_cases hzu : z = uid
      · exact Or.inr hzu
      · rw [mget_mset_ne _ _ _ _ hzu] at hz
        exact Or.inl ((hq z).mpr hz)
  · simp [List.nodup_append, hn, huw]

theorem stInv_init : StInv initState := by
  refine ⟨?_, ?_, ?_⟩
  · intro a b hab
    simp [initState, mget] at hab
  · intro z
    simp [initState, mget]
  · simp [initState]

theorem stInv_clear_pair (users : List (UserId × Session)) (waiting conns : List UserId)
    (evs : List (UserId × Msg)) (uid p : UserId)
    (hu : mget users uid = some ⟨some p⟩) (hpu : mget users p = some ⟨some uid⟩)
    (hup : uid ≠ p) (hs : SymOK users) (hq : QueueOK users waiting)
    (hn : waiting.Nodup) :
    StInv (pairUsers ⟨mset (mset users p ⟨none⟩) uid ⟨none⟩,
      (waiting ++ [p]) ++ [uid], conns, evs⟩) := by
  have huw : uid ∉ waiting := by
    intro hw
    have := (hq uid).mp hw
    rw [hu] at this
    simp at this
  have hpw : p ∉ waiting := by
    intro hw
    have := (hq p).mp hw
    rw [hpu] at this
    simp at this
  apply pairLoop_inv
  · intro a b hab
    by_cases hau : a = uid
    · subst hau
      rw [mget_mset_self] at hab
      simp at hab
    · by_cases hap : a = p
      · subst hap
        rw [mget_mset_ne _ _ _ _ hau, mget_mset_self] at hab
        simp at hab
      · rw [mget_mset_ne _ _ _ _ hau, mget_mset_ne _ _ _ _ hap] at hab
        obtain ⟨hne, hba⟩ := hs a b hab
        have hbu : b ≠ uid := by
          intro h
          subst h
          rw [hu] at hba
          simp at hba
          exact hap hba.symm
        have hbp : b ≠ p := by
          intro h
          subst h
          rw [hpu] at hba
          simp at hba
          exact hau hba.symm
        exact ⟨hne, by rw [mget_mset_ne _ _ _ _ hbu, mget_mset_ne _ _ _ _ hbp]; exact hba⟩
  · intro z
    simp only [List.mem_append, List.mem_singleton]
    constructor
    · rintro ((hz | rfl) | rfl)
      · have hz' := (hq z).mp hz
        have hzu : z ≠ uid := fun h => huw (h ▸ hz)
        have hzp : z ≠ p := fun h => hpw (h ▸ hz)
        rw [mget_mset_ne _ _ _ _ hzu, mget_mset_ne _ _ _ _ hzp]
        exact hz'
      · rw [mget_mset_ne _ _ _ _ (Ne.symm hup), mget_mset_self]
      · rw [mget_mset_self]
    · intro hz
      by_cases hzu : z = uid
      · exact Or.inr hzu
      · by_cases hzp : z = p
        · exact Or.inl (Or.inr hzp)
        · rw [mget_mset_ne _ _ _ _ hzu, mget_mset_ne _ _ _ _ hzp] at hz
          exact Or.inl (Or.inl ((hq z).mpr hz))
  · simp [List.nodup_append, hn, huw, hpw, hup, Ne.symm hup]

theorem stInv_of_eq (s s' : SState) (hU : s'.users = s.users)
    (hW : s'.waiting = s.waiting) (h : StInv s) : StInv s' := by
  obtain ⟨hs, hq, hn⟩ := h
  refine ⟨?_, ?_, ?_⟩
  · rw [hU]
    exact hs
  · rw [hU, hW]
    exact hq
  · rw [hW]
    exact hn

theorem relay_frame (uid : UserId) (ty : String) (d : SignalData) (s : SState)
    (hty : ty = "offer" ∨ ty = "answer" ∨ ty = "ice-candidate") :
    (signal uid ty d s).1 = Resp.ok ∧
    (signal uid ty d s).2.users = s.users ∧
    (signal uid ty d s).2.waiting = s.waiting ∧
    (signal uid ty d s).2.conns = s.conns ∧
    ∃ t, (signal uid ty d s).2.events = s.events ++ t ∧ t.length ≤ 1 ∧
      ∀ e ∈ t, some (Prod.fst e) = partnerOf s uid := by
  rcases hty with rfl | rfl | rfl
  · cases hu : mget s.users uid with
    | none =>
      refine ⟨?_, ?_, ?_, ?_, ⟨[], ?_, ?_, ?_⟩⟩ <;> simp [signal, hu]
    | some u =>
      obtain ⟨up⟩ := u
      cases up with
      | none =>
        refine ⟨?_, ?_, ?_, ?_, ⟨[], ?_, ?_, ?_⟩⟩ <;> simp [signal, hu]
      | some p =>
        by_cases hc : p ∈ s.conns
        · refine ⟨?_, ?_, ?_, ?_, ⟨[(p, .offer d.offer uid)], ?_, ?_, ?_⟩⟩ <;>
            simp [signal, hu, sendTo, hc, partnerOf]
        · refine ⟨?_, ?_, ?_, ?_, ⟨[], ?_, ?_, ?_⟩⟩ <;>
            simp [signal, hu, sendTo, hc]
  · cases hu : mget s.users uid with
    | none =>
      refine ⟨?_, ?_, ?_, ?_, ⟨[], ?_, ?_, ?_⟩⟩ <;> simp [signal, hu]
    | some u =>
      obtain ⟨up⟩ := u
      cases up with
      | none =>
        refine ⟨?_, ?_, ?_, ?_, ⟨[], ?_, ?_, ?_⟩⟩ <;> simp [signal, hu]
      | some p =>
        by_cases hc : p ∈ s.conns
        · refine ⟨?_, ?_, ?_, ?_, ⟨[(p, .answer d.answer uid)], ?_, ?_, ?_⟩⟩ <;>
            simp [signal, hu, sendTo, hc, partnerOf]
        · refine ⟨?_, ?_, ?_, ?_, ⟨[], ?_, ?_, ?_⟩⟩ <;>
            simp [signal, hu, sendTo, hc]
  · cases hu : mget s.users uid with
    | none =>
      refine ⟨?_, ?_, ?_, ?_, ⟨[], ?_, ?_, ?_⟩⟩ <;> simp [signal, hu]
    | some u =>
      obtain ⟨up⟩ := u
      cases up with
      | none =>
        refine ⟨?_, ?_, ?_, ?_, ⟨[], ?_, ?_, ?_⟩⟩ <;> simp [signal, hu]
      | some p =>
        cases hcand : d.candidate with
        | none =>
          refine ⟨?_, ?_, ?_, ?_, ⟨[], ?_, ?_, ?_⟩⟩ <;> simp [signal, hu, hcand]
        | some c =>
          by_cases hc : p ∈ s.conns
          · refine ⟨?_, ?_, ?_, ?_, ⟨[(p, .iceCandidate c uid)], ?_, ?_, ?_⟩⟩ <;>
              simp [signal, hu, hcand, sendTo, hc, partnerOf]
          · refine ⟨?_, ?_, ?_, ?_, ⟨[], ?_, ?_, ?_⟩⟩ <;>
              simp [signal, hu, hcand, sendTo, hc]

theorem signal_next_eq (uid p : UserId) (d : SignalData) (s : SState)
    (hu : mget s.users uid = some ⟨some p⟩) (sp : Session)
    (hpv : mget s.users p = some sp) :
    signal uid "next-user" d s =
      (Resp.ok, pairUsers ⟨mset (mset s.users p ⟨none⟩) uid ⟨none⟩,
        s.waiting ++ [p] ++ [uid], s.conns,
        sendTo s.conns s.events p .partnerDisconnected⟩) := by
  simp [signal, hu, hpv]

theorem signal_join_old_eq (uid : UserId) (d : SignalData) (s : SState)
    (h : mhas s.users uid = true) :
    signal uid "join" d s = (Resp.ok, s) := by
  simp [signal, h]

theorem signal_join_new_eq (uid : UserId) (d : SignalData) (s : SState)
    (h : mhas s.users uid = false) :
    signal uid "join" d s =
      (Resp.ok, pairUsers ⟨mset s.users uid ⟨none⟩, s.waiting ++ [uid],
        s.conns, s.events⟩) := by
  simp [signal, h]

theorem signal_default_eq (uid : UserId) (ty : String) (d : SignalData) (s : SState)
    (h1 : ty ≠ "offer") (h2 : ty ≠ "answer") (h3 : ty ≠ "ice-candidate")
    (h4 : ty ≠ "next-user") (h5 : ty ≠ "join") :
    signal uid ty d s = (Resp.ok, s) := by
  simp [signal, h1, h2, h3, h4, h5]

theorem stInv_signal (uid : UserId) (ty : String) (d : SignalData) (s : SState)
    (h : StInv s) : StInv (signal uid ty d s).2 := by
  obtain ⟨hs, hq, hn⟩ := h
  by_cases h1 : ty = "offer"
  · obtain ⟨_, hU, hW, _, _⟩ := relay_frame uid ty d s (Or.inl h1)
    exact stInv_of_eq s _ hU hW ⟨hs, hq, hn⟩
  by_cases h2 : ty = "answer"
  · obtain ⟨_, hU, hW, _, _⟩ := relay_frame uid ty d s (Or.inr (Or.inl h2))
    exact stInv_of_eq s _ hU hW ⟨hs, hq, hn⟩
  by_cases h3 : ty = "ice-candidate"
  · obtain ⟨_, hU, hW, _, _⟩ := relay_frame uid ty d s (Or.inr (Or.inr h3))
    exact stInv_of_eq s _ hU hW ⟨hs, hq, hn⟩
  by_cases h4 : ty = "next-user"
  · subst h4
    cases hu : mget s.users uid with
    | none =>
      have he : signal uid "next-user" d s = (Resp.ok, s) := by simp [signal, hu]
      rw [he]
      exact ⟨hs, hq, hn⟩
    | some u =>
      obtain ⟨up⟩ := u
      cases up with
      | none =>
        have he : signal uid "next-user" d s = (Resp.ok, s) := by simp [signal, hu]
        rw [he]
        exact ⟨hs, hq, hn⟩
      | some p =>
        obtain ⟨hup, hpu⟩ := hs uid p hu
        rw [signal_next_eq uid p d s hu _ hpu]
        exact stInv_clear_pair s.users s.waiting s.conns _ uid p hu hpu hup hs hq hn
  by_cases h5 : ty = "join"
  · subst h5
    cases hh : mhas s.users uid with
    | true =>
      rw [signal_join_old_eq uid d s hh]
      exact ⟨hs, hq, hn⟩
    | false =>
      have hun : mget s.users uid = none := by
        cases hx : mget s.users uid with
        | none => rfl
        | some v => rw [mhas, hx] at hh; simp at hh
      rw [signal_join_new_eq uid d s hh]
      exact stInv_enqueue_new s.users s.waiting _ _ uid hun hs hq hn
  rw [signal_default_eq uid ty d s h1 h2 h3 h4 h5]
  exact ⟨hs, hq, hn⟩

theorem stInv_remove (users : List (UserId × Session)) (waiting conns : List UserId)
    (evs : List (UserId × Msg)) (uid : UserId)
    (hnp : ∀ p, mget users uid ≠ some ⟨some p⟩)
    (hs : SymOK users) (hq : QueueOK users waiting) (hn : waiting.Nodup) :
    StInv (pairUsers ⟨mdel users uid, waiting.erase uid, conns, evs⟩) := by
  apply pairLoop_inv
  · intro a b hab
    have hau : a ≠ uid := by
      intro h
      subst h
      rw [mget_mdel_self] at hab
      cases hab
    rw [mget_mdel_ne _ _ _ hau] at hab
    obtain ⟨hne, hba⟩ := hs a b hab
    have hbu : b ≠ uid := by
      intro h
      subst h
      exact hnp a hba
    exact ⟨hne, by rw [mget_mdel_ne _ _ _ hbu]; exact hba⟩
  · intro z
    constructor
    · intro hz
      obtain ⟨hzu, hzw⟩ := (hn.mem_erase_iff).mp hz
      rw [mget_mdel_ne _ _ _ hzu]
      exact (hq z).mp hzw
    · intro hz
      have hzu : z ≠ uid := by
        intro h
        subst h
        rw [mget_mdel_self] at hz
        cases hz
      rw [mget_mdel_ne _ _ _ hzu] at hz
      exact (hn.mem_erase_iff).mpr ⟨hzu, (hq z).mpr hz⟩
  · exact hn.erase uid

theorem stInv_close_pair (users : List (UserId × Session)) (waiting conns : List UserId)
    (evs : List (UserId × Msg)) (uid p : UserId)
    (hu : mget users uid = some ⟨some p⟩) (hpu : mget users p = some ⟨some uid⟩)
    (hup : uid ≠ p) (hs : SymOK users) (hq : QueueOK users waiting)
    (hn : waiting.Nodup) :
    StInv (pairUsers ⟨mdel (mset users p ⟨none⟩) uid, (waiting ++ [p]).erase uid,
      conns, evs⟩) := by
  have huw : uid ∉ waiting := by
    intro hw
    have := (hq uid).mp hw
    rw [hu] at this
    simp at this
  have hpw : p ∉ waiting := by
    intro hw
    have := (hq p).mp hw
    rw [hpu] at this
    simp at this
  have herase : (waiting ++ [p]).erase uid = waiting ++ [p] :=
    List.erase_of_not_mem (by simp [huw, hup])
  rw [herase]
  apply pairLoop_inv
  · intro a b hab
    have hau : a ≠ uid := by
      intro h
      subst h
      rw [mget_mdel_self] at hab
      cases hab
    rw [mget_mdel_ne _ _ _ hau] at hab
    by_cases hap : a = p
    · subst hap
      rw [mget_mset_self] at hab
      simp at hab
    · rw [mget_mset_ne _ _ _ _ hap] at hab
      obtain ⟨hne, hba⟩ := hs a b hab
      have hbu : b ≠ uid := by
        intro h
        subst h
        rw [hu] at hba
        simp at hba
        exact hap hba.symm
      have hbp : b ≠ p := by
        intro h
        subst h
        rw [hpu] at hba
        simp at hba
        exact hau hba.symm
      exact ⟨hne, by
        rw [mget_mdel_ne _ _ _ hbu, mget_mset_ne _ _ _ _ hbp]
        exact hba⟩
  · intro z
    simp only [List.mem_append, List.mem_singleton]
    constructor
    · rintro (hz | rfl)
      · have hzu : z ≠ uid := fun h => huw (h ▸ hz)
        have hzp : z ≠ p := fun h => hpw (h ▸ hz)
        rw [mget_mdel_ne _ _ _ hzu, mget_mset_ne _ _ _ _ hzp]
        exact (hq z).mp hz
      · rw [mget_mdel_ne _ _ _ (Ne.symm hup), mget_mset_self]
    · intro hz
      have hzu : z ≠ uid := by
        intro h
        subst h
        rw [mget_mdel_self] at hz
        cases hz
      rw [mget_mdel_ne _ _ _ hzu] at hz
      by_cases hzp : z = p
      · exact Or.inr hzp
      · rw [mget_mset_ne _ _ _ _ hzp] at hz
        exact Or.inl ((hq z).mpr hz)
  · simp [List.nodup_append, hn, hpw]

theorem closeChannel_dead_eq (uid : UserId) (s : SState)
    (hu : mget s.users uid = none) :
    closeChannel uid s = pairUsers ⟨mdel s.users uid, s.waiting.erase uid,
      s.conns.filter (fun x => x ≠ uid), s.events⟩ := by
  simp [closeChannel, hu]

theorem closeChannel_single_eq (uid : UserId) (s : SState)
    (hu : mget s.users uid = some ⟨none⟩) :
    closeChannel uid s = pairUsers ⟨mdel s.users uid, s.waiting.erase uid,
      s.conns.filter (fun x => x ≠ uid), s.events⟩ := by
  simp [closeChannel, hu]

theorem closeChannel_paired_eq (uid p : UserId) (s : SState)
    (hu : mget s.users uid = some ⟨some p⟩) (sp : Session)
    (hpv : mget s.users p = some sp) :
    closeChannel uid s = pairUsers ⟨mdel (mset s.users p ⟨none⟩) uid,
      (s.waiting ++ [p]).erase uid, s.conns.filter (fun x => x ≠ uid),
      sendTo (s.conns.filter (fun x => x ≠ uid)) s.events p .partnerDisconnected⟩ := by
  simp [closeChannel, hu, hpv]

theorem stInv_closeChannel (uid : UserId) (s : SState) (h : StInv s) :
    StInv (closeChannel uid s) := by
  obtain ⟨hs, hq, hn⟩ := h
  cases hu : mget s.users uid with
  | none =>
    rw [closeChannel_dead_eq uid s hu]
    exact stInv_remove s.users s.waiting _ _ uid (by simp [hu]) hs hq hn
  | some u =>
    obtain ⟨up⟩ := u
    cases up with
    | none =>
      rw [closeChannel_single_eq uid s hu]
      exact stInv_remove s.users s.waiting _ _ uid (by simp [hu]) hs hq hn
    | some p =>
      obtain ⟨hup, hpu⟩ := hs uid p hu
      rw [closeChannel_paired_eq uid p s hu _ hpu]
      exact stInv_close_pair s.users s.waiting _ _ uid p hu hpu hup hs hq hn

theorem stInv_openChannel (uid : UserId) (s : SState) (h : StInv s) :
    StInv (openChannel uid s) := by
  obtain ⟨hs, hq, hn⟩ := h
  unfold openChannel
  by_cases hh : mhas s.users uid
  · simp only [hh, if_true]
    exact ⟨hs, hq, hn⟩
  · have hun : mget s.users uid = none := by
      simpa [mhas, Option.not_isSome_iff_eq_none] using hh
    simp only [hh, if_false]
    exact stInv_enqueue_new s.users s.waiting _ _ uid hun hs hq hn

theorem reach_stInv (s : SState) (h : Reach s) : StInv s := by
  induction h with
  | init => exact stInv_init
  | openCh s uid _ ih => exact stInv_openChannel uid s ih
  | sig s uid ty d _ ih => exact stInv_signal uid ty d s ih
  | closeCh s uid _ ih => exact stInv_closeChannel uid s ih

/-- C1: the signal dispatcher has no `ready` handler.  A `ready` signal from
any client in any state falls to the `default` branch of the `switch`: it is
acknowledged `ok` and the whole state — sessions (which carry no `ready`
field at all), queue, connections and event log — is left unchanged, so no
`start-call` event with an `initiator` flag is ever produced, although the
repository's clients send `ready` and wait for `start-call`. -/
theorem c1_ready_signal_ignored (uid : UserId) (d : SignalData) (s : SState) :
    signal uid "ready" d s = (Resp.ok, s) :=
  signal_default_eq uid "ready" d s (by decide) (by decide) (by decide)
    (by decide) (by decide)

/-- C2 counterexample: with queue `[a, b, c]` where `a` has no session and
`b` does, the pairing loop leaves `b` out of the queue entirely (final
queue `[c]`) and unpaired — the still-valid `b` is not pushed back to the
front as the claim states. -/
theorem c2_push_back_cex :
    (pairUsers c2State).waiting = ["c"] ∧
    "b" ∉ (pairUsers c2State).waiting ∧
    mget (pairUsers c2State).users "b" = some ⟨none⟩ := by
  decide

/-- C2 amended: when either of the two popped ids has no live session, the
iteration pairs nobody, mutates no session and re-enqueues neither id —
both popped ids are dropped and the loop continues with the remaining
queue; a popped id that does not reappear later in the queue ends up
outside the final queue with its session untouched. -/
theorem c2_missing_session_drops_both (s : SState) (x y : UserId)
    (rest : List UserId) (hw : s.waiting = x :: y :: rest)
    (hmiss : mget s.users x = none ∨ mget s.users y = none) :
    pairUsers s = pairLoop rest s.users s.conns s.events ∧
    (x ∉ rest → x ∉ (pairUsers s).waiting ∧
      mget (pairUsers s).users x = mget s.users x) ∧
    (y ∉ rest → y ∉ (pairUsers s).waiting ∧
      mget (pairUsers s).users y = mget s.users y) := by
  have h1 : pairUsers s = pairLoop (x :: y :: rest) s.users s.conns s.events := by
    rw [pairUsers, hw]
  have h2 : pairLoop (x :: y :: rest) s.users s.conns s.events =
      pairLoop rest s.users s.conns s.events := by
    rcases hmiss with hx | hy
    · cases hy' : mget s.users y <;> simp [pairLoop, hx, hy']
    · cases hx' : mget s.users x <;> simp [pairLoop, hx', hy]
  refine ⟨h1.trans h2, ?_, ?_⟩
  · intro hxr
    rw [h1, h2]
    exact ⟨fun hmem => hxr (pairLoop_waiting_sub rest _ _ _ x hmem),
      pairLoop_users_not_mem rest _ _ _ x hxr⟩
  · intro hyr
    rw [h1, h2]
    exact ⟨fun hmem => hyr (pairLoop_waiting_sub rest _ _ _ y hmem),
      pairLoop_users_not_mem rest _ _ _ y hyr⟩

/-- C2 amended, witness at the concrete queue `[a, b, c]` with `a` missing. -/
theorem c2_missing_session_drops_both_w :
    c2State.waiting = "a" :: "b" :: ["c"] ∧
    mget c2State.users "a" = none ∧
    "b" ∉ (pairUsers c2State).waiting ∧
    mget (pairUsers c2State).users "b" = mget c2State.users "b" := by
  have h := (c2_missing_session_drops_both c2State "a" "b" ["c"] rfl
    (Or.inl (by decide))).2.2 (by decide)
  exact ⟨rfl, by decide, h.1, h.2⟩

/-- C3: the pairing loop is strict FIFO — when the queue starts with `x`
then `y`, both with live sessions (and neither recurring later in the
queue), the pass pairs `x` with `y`: afterwards each one's partner field
is the other. -/
theorem c3_fifo_head_pair (s : SState) (x y : UserId) (rest : List UserId)
    (sx sy : Session) (hw : s.waiting = x :: y :: rest)
    (hx : mget s.users x = some sx) (hy : mget s.users y = some sy)
    (hxy : x ≠ y) (hxr : x ∉ rest) (hyr : y ∉ rest) :
    mget (pairUsers s).users x = some ⟨some y⟩ ∧
    mget (pairUsers s).users y = some ⟨some x⟩ := by
  rw [pairUsers, hw]
  exact pairLoop_pairs_head x y rest s.users s.conns s.events sx sy hx hy
    hxy hxr hyr

/-- C3 witness: four live clients queued `a, b, c, d` are paired `(a,b)`
and `(c,d)`, and `a` is never paired with `c`. -/
theorem c3_fifo_head_pair_w :
    mget (pairUsers c3State).users "a" = some ⟨some "b"⟩ ∧
    mget (pairUsers c3State).users "b" = some ⟨some "a"⟩ ∧
    mget (pairUsers c3State).users "c" = some ⟨some "d"⟩ ∧
    mget (pairUsers c3State).users "d" = some ⟨some "c"⟩ ∧
    mget (pairUsers c3State).users "a" ≠ some ⟨some "c"⟩ := by
  have h := c3_fifo_head_pair c3State "a" "b" ["c", "d"] ⟨none⟩ ⟨none⟩ rfl
    (by decide) (by decide) (by decide) (by decide) (by decide)
  exact ⟨h.1, h.2, by decide, by decide, by decide⟩

/-- C4 amended (in-memory server): partner symmetry holds in every
reachable state — whenever one session's partner field names another id,
that id's session points back. -/
theorem c4_partner_symmetry (s : SState) (h : Reach s) (a b : UserId)
    (hab : mget s.users a = some ⟨some b⟩) :
    mget s.users b = some ⟨some a⟩ :=
  ((reach_stInv s h).1 a b hab).2

/-- C4 witness at the reachable state where `u1` and `u2` opened channels
and were paired. -/
theorem c4_partner_symmetry_w :
    mget twoOpenState.users "u1" = some ⟨some "u2"⟩ ∧
    mget twoOpenState.users "u2" = some ⟨some "u1"⟩ :=
  ⟨by decide, c4_partner_symmetry twoOpenState
    (Reach.openCh _ "u2" (Reach.openCh _ "u1" Reach.init)) "u1" "u2" (by decide)⟩

/-- C4 counterexample (DB-backed server): after `u1` and `u2` are paired,
`u1` re-opens its event channel (which re-enqueues it without clearing its
partner) and `u3` connects; the next pairing pass leaves `u2` pointing at
`u1` while `u1` points at `u3` — asymmetric partner pointers at a
quiescent point. -/
theorem c4_db_asymmetry_cex :
    dbPartnerOf dbReopenState "u2" = some "u1" ∧
    dbPartnerOf dbReopenState "u1" = some "u3" ∧
    dbPartnerOf dbReopenState "u1" ≠ some "u2" := by
  decide

/-- C5 amended (in-memory server): in every reachable state an id is in the
waiting queue exactly when it has a session with no partner. -/
theorem c5_queue_iff (s : SState) (h : Reach s) (x : UserId) :
    x ∈ s.waiting ↔ mget s.users x = some ⟨none⟩ :=
  (reach_stInv s h).2.1 x

/-- C5 witness at the reachable two-client paired state. -/
theorem c5_queue_iff_w :
    ("u1" ∈ twoOpenState.waiting ↔ mget twoOpenState.users "u1" = some ⟨none⟩) :=
  c5_queue_iff twoOpenState
    (Reach.openCh _ "u2" (Reach.openCh _ "u1" Reach.init)) "u1"

/-- C5 counterexample (DB-backed server): after the paired `u1` re-opens
its event channel, `u1` sits in the waiting queue while its session still
records partner `u2` — queued and partnered simultaneously. -/
theorem c5_db_partnered_in_queue_cex :
    "u1" ∈ dbReopen3.waiting ∧ dbPartnerOf dbReopen3 "u1" = some "u2" := by
  decide

/-- C6 amended (in-memory server): a `join` for an id that already has a
session is answered `ok` with the state completely unchanged, and a repeat
channel open leaves the registry and the queue untouched. -/
theorem c6_join_idempotent_mem (uid : UserId) (d : SignalData) (s : SState)
    (h : mhas s.users uid = true) :
    signal uid "join" d s = (Resp.ok, s) ∧
    (openChannel uid s).users = s.users ∧
    (openChannel uid s).waiting = s.waiting := by
  refine ⟨signal_join_old_eq uid d s h, ?_, ?_⟩ <;> simp [openChannel, h]

/-- C6 witness: a second `join` of the already-registered `u1` changes
nothing. -/
theorem c6_join_idempotent_mem_w :
    mhas twoOpenState.users "u1" = true ∧
    signal "u1" "join" sdNone twoOpenState = (Resp.ok, twoOpenState) :=
  ⟨by decide, (c6_join_idempotent_mem "u1" sdNone twoOpenState (by decide)).1⟩

/-- C6 counterexample (DB-backed server): after `u1` and `u2` join and are
paired, a second `join` from `u2` re-enqueues it (queue `[u2]` instead of
`[]`), so joining twice is not equivalent to joining once; when `u3` then
joins, the pass hands `u2` to `u3` while `u1` still points at `u2` — the
repeated join disrupted an existing partnership. -/
theorem c6_db_double_join_cex :
    dbJoinOnce.waiting = [] ∧
    dbJoinTwice.waiting = ["u2"] ∧
    dbPartnerOf dbJoinTwice "u2" = some "u1" ∧
    dbPartnerOf dbJoinSteal "u1" = some "u2" ∧
    dbPartnerOf dbJoinSteal "u2" = some "u3" := by
  decide

/-- C7 amended (DB-backed server): a signal of any type from an id with no
`UserSession` document is answered 404 `User not found` and the whole
state is left unchanged. -/
theorem c7_unknown_sender_not_found (uid : UserId) (ty : String)
    (d : SignalData) (s : DbState) (h : dbGet s.db uid = none) :
    dbSignal uid ty d s = (Resp.notFound, s) := by
  simp [dbSignal, h]

/-- C7 witness: an `offer` from the unknown `u9` on the empty DB state. -/
theorem c7_unknown_sender_not_found_w :
    dbGet dbInit.db "u9" = none ∧
    dbSignal "u9" "offer" sdNone dbInit = (Resp.notFound, dbInit) :=
  ⟨rfl, c7_unknown_sender_not_found "u9" "offer" sdNone dbInit rfl⟩

/-- C7 counterexample (in-memory server): a `join` from an id with no
session is answered `ok` — not an error — and mutates the state (the
unknown sender is registered and enqueued). -/
theorem c7_mem_unknown_join_cex :
    mget initState.users "u1" = none ∧
    (signal "u1" "join" sdNone initState).1 = Resp.ok ∧
    (signal "u1" "join" sdNone initState).1 ≠ Resp.notFound ∧
    (signal "u1" "join" sdNone initState).2 ≠ initState := by
  decide

/-- C8: a `next-user` from a partnered client delivers `partner-disconnected`
to the partner's live channel, clears both partner fields, re-enqueues the
partner and then the sender at the back of the queue, and runs a pairing
pass on the result; in particular, when nobody else was waiting the two
are re-paired with each other. -/
theorem c8_next_user (s : SState) (uid p : UserId) (d : SignalData)
    (hu : mget s.users uid = some ⟨some p⟩) (sp : Session)
    (hpv : mget s.users p = some sp) (hup : uid ≠ p) (hc : p ∈ s.conns) :
    signal uid "next-user" d s =
      (Resp.ok, pairUsers ⟨mset (mset s.users p ⟨none⟩) uid ⟨none⟩,
        s.waiting ++ [p] ++ [uid], s.conns,
        s.events ++ [(p, Msg.partnerDisconnected)]⟩) ∧
    (p, Msg.partnerDisconnected) ∈ (signal uid "next-user" d s).2.events ∧
    (s.waiting = [] →
      mget (signal uid "next-user" d s).2.users uid = some ⟨some p⟩ ∧
      mget (signal uid "next-user" d s).2.users p = some ⟨some uid⟩) := by
  have he := signal_next_eq uid p d s hu sp hpv
  have hsend : sendTo s.conns s.events p .partnerDisconnected =
      s.events ++ [(p, Msg.partnerDisconnected)] := by
    simp [sendTo, hc]
  refine ⟨by rw [he, hsend], ?_, ?_⟩
  · rw [he]
    obtain ⟨t, ht⟩ := pairLoop_events_grow (s.waiting ++ [p] ++ [uid])
      (mset (mset s.users p ⟨none⟩) uid ⟨none⟩) s.conns
      (sendTo s.conns s.events p .partnerDisconnected)
    simp only [pairUsers] at ht ⊢
    rw [ht, hsend]
    simp
  · intro hwe
    rw [he, hwe]
    have hpq : mget (mset (mset s.users p ⟨none⟩) uid ⟨none⟩) p = some ⟨none⟩ := by
      rw [mget_mset_ne _ _ _ _ (Ne.symm hup), mget_mset_self]
    have huq : mget (mset (mset s.users p ⟨none⟩) uid ⟨none⟩) uid = some ⟨none⟩ :=
      mget_mset_self _ _ _
    have h := pairLoop_pairs_head p uid []
      (mset (mset s.users p ⟨none⟩) uid ⟨none⟩) s.conns
      (sendTo s.conns s.events p .partnerDisconnected) ⟨none⟩ ⟨none⟩ hpq huq
      (Ne.symm hup) (by simp) (by simp)
    exact ⟨h.2, h.1⟩

/-- C8 witness: in the paired two-client state, `u1`'s `next-user` notifies
`u2` and the pairing pass re-pairs the two with each other. -/
theorem c8_next_user_w :
    mget twoOpenState.users "u1" = some ⟨some "u2"⟩ ∧
    "u2" ∈ twoOpenState.conns ∧
    ("u2", Msg.partnerDisconnected) ∈
      (signal "u1" "next-user" sdNone twoOpenState).2.events ∧
    mget (signal "u1" "next-user" sdNone twoOpenState).2.users "u1" =
      some ⟨some "u2"⟩ := by
  have h := c8_next_user twoOpenState "u1" "u2" sdNone (by decide)
    ⟨some "u1"⟩ (by decide) (by decide) (by decide)
  exact ⟨by decide, by decide, h.2.1, (h.2.2 (by decide)).1⟩

/-- C9: an `offer`, `answer` or `ice-candidate` signal from a registered
client never changes the session map, the waiting queue or the connection
set; the event log grows by at most one entry, and any entry added is
addressed to the sender's current partner. -/
theorem c9_relay_frame (uid : UserId) (ty : String) (d : SignalData)
    (s : SState) (_hreg : mhas s.users uid = true)
    (hty : ty = "offer" ∨ ty = "answer" ∨ ty = "ice-candidate") :
    (signal uid ty d s).2.users = s.users ∧
    (signal uid ty d s).2.waiting = s.waiting ∧
    (signal uid ty d s).2.conns = s.conns ∧
    ∃ t, (signal uid ty d s).2.events = s.events ++ t ∧ t.length ≤ 1 ∧
      ∀ e ∈ t, some (Prod.fst e) = partnerOf s uid := by
  obtain ⟨_, hU, hW, hC, ht⟩ := relay_frame uid ty d s hty
  exact ⟨hU, hW, hC, ht⟩

/-- C9 witness: an `offer` from the registered, partnered `u1`. -/
theorem c9_relay_frame_w :
    mhas twoOpenState.users "u1" = true ∧
    (signal "u1" "offer" sdNone twoOpenState).2.users = twoOpenState.users ∧
    (signal "u1" "offer" sdNone twoOpenState).2.waiting = twoOpenState.waiting := by
  have h := c9_relay_frame "u1" "offer" sdNone twoOpenState (by decide)
    (Or.inl rfl)
  exact ⟨by decide, h.1, h.2.1⟩

/-- C10: termination of the pairing loop — the loop body applies exactly
when the queue holds at least two entries, each application removes exactly
two entries and adds none, running the loop equals running the body once
and then the loop, and the loop's final queue (the length modulo two) holds
fewer than two entries. -/
theorem c10_pair_loop_terminates (s : SState) :
    (pairStep s = none ↔ s.waiting.length < 2) ∧
    (∀ s', pairStep s = some s' →
      s'.waiting.length + 2 = s.waiting.length ∧ pairUsers s' = pairUsers s) ∧
    (pairUsers s).waiting.length = s.waiting.length % 2 ∧
    (pairUsers s).waiting.length < 2 := by
  refine ⟨?_, ?_, ?_, ?_⟩
  · cases hw : s.waiting with
    | nil => simp [pairStep, hw]
    | cons x q1 =>
      cases q1 with
      | nil => simp [pairStep, hw]
      | cons y rest =>
        cases hx : mget s.users x <;> cases hy : mget s.users y <;>
          simp [pairStep, hw, hx, hy]
  · intro s' hstep
    cases hw : s.waiting with
    | nil => rw [pairStep, hw] at hstep; cases hstep
    | cons x q1 =>
      cases q1 with
      | nil => rw [pairStep, hw] at hstep; cases hstep
      | cons y rest =>
        cases hx : mget s.users x <;> cases hy : mget s.users y <;>
          rw [pairStep, hw] at hstep <;> simp only [hx, hy] at hstep <;>
          cases hstep <;>
          constructor <;>
          simp [pairUsers, pairLoop, hw, hx, hy]
  · rw [pairUsers]
    exact pairLoop_waiting_len s.waiting s.users s.conns s.events
  · rw [pairUsers, pairLoop_waiting_len s.waiting s.users s.conns s.events]
    omega

/-- C10 witness at the four-client queue: the guard holds, the pass runs to
completion and empties the queue. -/
theorem c10_pair_loop_terminates_w :
    (pairStep c3State = none ↔ c3State.waiting.length < 2) ∧
    (pairUsers c3State).waiting.length = c3State.waiting.length % 2 ∧
    (pairUsers c3State).waiting.length < 2 :=
  ⟨(c10_pair_loop_terminates c3State).1,
   (c10_pair_loop_terminates c3State).2.2.1,
   (c10_pair_loop_terminates c3State).2.2.2⟩
